import Mathlib

/-!
Verification development for the labyrinth-rs repository: a shallow embedding
of the tile/map/pathfinding-cache model (crates `labyrinth_rs` and
`labyrinth_map`) and of the room-shape generator (crate `daedalus`),
with theorems settling the specified properties.

Conventions of the embedding:
* `Point` (bracket-lib, i32 coordinates) is modelled as a pair of `Int`.
* Rust `HashMap`/`HashSet` are modelled as association lists / lists with
  membership up to duplication; only lookup, insert-if-absent, full clear and
  iteration are used by the embedded code, and none of the settled properties
  depend on iteration order.
* Rust `Result<T, String>` is `Except String T`; `collect::<Result<Vec<_>,_>>`
  is the short-circuiting `collectResults`.
* The Rust field `opaque` is spelled `opaq` here.
-/

/-- Model of bracket-lib `Point` (i32 coordinates, modelled as `Int`). -/
structure Pt where
  x : Int
  y : Int
deriving DecidableEq, Repr

/-- Pointwise addition, modelling bracket-lib `Point + Point`. -/
def ptAdd (a b : Pt) : Pt := ⟨a.x + b.x, a.y + b.y⟩

/-- `MoveType` from `src/map_objects.rs`: Walk, Fly, Swim or a named custom
movement mode.  Equality is the derived structural equality. -/
inductive MoveType where
  | Walk : MoveType
  | Fly : MoveType
  | Swim : MoveType
  | Custom : String → MoveType
deriving DecidableEq, Repr

/-- Rank of the variant, mirroring the derived `Ord` on `MoveType`
(declaration order: Walk < Fly < Swim < Custom). -/
def mtRank : MoveType → Nat
  | .Walk => 0
  | .Fly => 1
  | .Swim => 2
  | .Custom _ => 3

/-- The derived total order on `MoveType`: by variant rank, and for two
`Custom` values by the (lexicographic) order on their names. -/
def mtLE (a b : MoveType) : Bool :=
  match a, b with
  | .Custom s, .Custom t => s ≤ t
  | _, _ => mtRank a ≤ mtRank b

/-- Insert into a sorted list, auxiliary to `sortMoveTypes`. -/
def insSorted (a : MoveType) : List MoveType → List MoveType
  | [] => [a]
  | b :: l => if mtLE a b then a :: b :: l else b :: insSorted a l

/-- Canonicalization of a capability list: `move_types_vec.sort()` in
`Map::get_from_cache_or_add` (insertion sort; stable, same sorted result). -/
def sortMoveTypes (l : List MoveType) : List MoveType := l.foldr insSorted []

/-- First-match lookup in an association list, modelling `HashMap::get`
on the `other_movement` map of a tile. -/
def lookupStr : List (String × Bool) → String → Option Bool
  | [], _ => none
  | (k, v) :: rest, s => if k = s then some v else lookupStr rest s

/-- `Tile` from `src/map_objects/tiles.rs` (both crate versions agree):
kind label, opacity, the three built-in access flags and the custom
movement map.  (`opaque` is spelled `opaq`.) -/
structure Tile where
  kind : String
  opaq : Bool
  walk : Bool
  fly : Bool
  swim : Bool
  other_movement : List (String × Bool)
deriving DecidableEq, Repr

/-- `Tile::wall()`. -/
def Tile.wall : Tile := ⟨"wall", true, false, false, false, []⟩

/-- `Tile::floor()`. -/
def Tile.floor : Tile := ⟨"floor", false, true, true, false, []⟩

/-- `Tile::water()`. -/
def Tile.water : Tile := ⟨"water", false, false, true, true, []⟩

/-- `Tile::lava()`. -/
def Tile.lava : Tile := ⟨"lava", false, false, true, false, []⟩

/-- `Tile::chasm()`. -/
def Tile.chasm : Tile := ⟨"chasm", false, false, true, false, []⟩

/-- The per-capability check inside `Tile::can_enter`: built-in modes read the
corresponding flag; a custom mode reads `other_movement` and errors when the
name is absent. -/
def canEnterOne (t : Tile) : MoveType → Except String Bool
  | .Walk => .ok t.walk
  | .Fly => .ok t.fly
  | .Swim => .ok t.swim
  | .Custom c =>
    match lookupStr t.other_movement c with
    | some b => .ok b
    | none => .error ("Movement type " ++ c ++ " does not exist for this tile")

/-- `collect::<Result<Vec<bool>, String>>()`: succeeds with the list of values
when every entry is `ok`, otherwise returns the first error. -/
def collectResults : List (Except String Bool) → Except String (List Bool)
  | [] => .ok []
  | .error e :: _ => .error e
  | .ok b :: rest =>
    match collectResults rest with
    | .error e => .error e
    | .ok bs => .ok (b :: bs)

/-- `Tile::can_enter` from `src/map_objects/tiles.rs` lines 251-265 (and
`labyrinth_map` lines 416-430): map each requested capability to its flag,
collect the results (short-circuiting on an undefined custom capability) and
take the disjunction. -/
def Tile.can_enter (t : Tile) (move_types : List MoveType) : Except String Bool :=
  (collectResults (move_types.map (canEnterOne t))).map (fun l => l.any id)

/-- Membership of a movement mode in a tile's access set (the set of modes
that may enter the tile): the built-in flag, or a custom name stored with
value `true`. -/
def accessMem (t : Tile) : MoveType → Bool
  | .Walk => t.walk
  | .Fly => t.fly
  | .Swim => t.swim
  | .Custom c =>
    match lookupStr t.other_movement c with
    | some b => b
    | none => false

/-- Whether a `can_enter` call returned `Ok(true)`. -/
def isOkTrue : Except String Bool → Bool
  | .ok true => true
  | _ => false

theorem any_map_id (f : MoveType → Bool) :
    ∀ l : List MoveType, (l.map f).any id = l.any f := by
  intro l
  induction l with
  | nil => rfl
  | cons a rest ih => simp [List.any_cons, ih]

theorem collectResults_defined (t : Tile) :
    ∀ (mts : List MoveType),
      (∀ s, MoveType.Custom s ∈ mts → (lookupStr t.other_movement s).isSome = true) →
      collectResults (mts.map (canEnterOne t)) = .ok (mts.map (accessMem t)) := by
  intro mts
  induction mts with
  | nil => intro _; rfl
  | cons mt rest ih =>
    intro hdef
    have hrest := ih (fun s hs => hdef s (List.mem_cons_of_mem _ hs))
    have hhead : canEnterOne t mt = .ok (accessMem t mt) := by
      cases mt with
      | Walk => rfl
      | Fly => rfl
      | Swim => rfl
      | Custom s =>
        have : (lookupStr t.other_movement s).isSome = true :=
          hdef s (List.mem_cons_self _ _)
        cases h : lookupStr t.other_movement s with
        | none => rw [h] at this; simp at this
        | some b => simp [canEnterOne, accessMem, h]
    simp only [List.map_cons, hhead, collectResults, hrest]

/-- C1: the claim as stated — `can_enter` returns true iff the capability set
meets the tile's access set — fails at the floor tile with capability list
[Walk, Custom "x"]: Walk is in the floor's access set, yet `can_enter`
returns an error (undefined custom capability), not `Ok(true)`. -/
theorem C1_counterexample :
    ¬ (isOkTrue (Tile.floor.can_enter [MoveType.Walk, MoveType.Custom "x"]) = true ↔
       ([MoveType.Walk, MoveType.Custom "x"].any (accessMem Tile.floor)) = true) := by
  decide

/-- C1 (amended): when every custom capability in the set is defined on the
tile, `can_enter` returns `Ok` of "the capability set meets the tile's access
set"; in particular the empty capability set yields `Ok(false)` on every tile.
When some custom capability is undefined on the tile, `can_enter` instead
returns an error. -/
theorem C1_can_enter_amended (t : Tile) (mts : List MoveType)
    (hdef : ∀ s, MoveType.Custom s ∈ mts → (lookupStr t.other_movement s).isSome = true) :
    t.can_enter mts = .ok (mts.any (accessMem t)) ∧ t.can_enter [] = .ok false := by
  refine ⟨?_, rfl⟩
  unfold Tile.can_enter
  rw [collectResults_defined t mts hdef]
  simp [Except.map, any_map_id]

/-- C1 witness: the amended theorem applied at the floor tile and the
capability list [Walk, Swim] (no custom capabilities, so the definedness
hypothesis is vacuous). -/
theorem C1_can_enter_amended_witness :
    (∀ s, MoveType.Custom s ∈ [MoveType.Walk, MoveType.Swim] →
        (lookupStr Tile.floor.other_movement s).isSome = true) ∧
    Tile.floor.can_enter [MoveType.Walk, MoveType.Swim] =
      .ok ([MoveType.Walk, MoveType.Swim].any (accessMem Tile.floor)) ∧
    Tile.floor.can_enter [] = .ok false := by
  have hdef : ∀ s, MoveType.Custom s ∈ [MoveType.Walk, MoveType.Swim] →
      (lookupStr Tile.floor.other_movement s).isSome = true := by
    intro s hs
    simp [List.mem_cons] at hs
  exact ⟨hdef, C1_can_enter_amended Tile.floor [MoveType.Walk, MoveType.Swim] hdef⟩

/-- `MapInternal` from `src/map_objects.rs` lines 278-301: the cached
projection for one canonical capability set — per-tile opacity, per-tile
enterability and the dimensions. -/
structure MapInternal where
  opaq : List Bool
  enterable : List Bool
  dimX : Int
  dimY : Int
deriving DecidableEq, Repr

/-- `Map` from `src/map_objects.rs` lines 39-45: the tiles (row-major), the
dimensions, and the pathfinding cache keyed by canonicalized capability
lists. -/
structure Map where
  tiles : List Tile
  dimX : Int
  dimY : Int
  pathfinding_cache : List (List MoveType × MapInternal)
deriving Repr

/-- `Map::new(width, height)`: all tiles are walls, empty cache. -/
def Map.new (width height : Nat) : Map :=
  ⟨List.replicate (width * height) Tile.wall, width, height, []⟩

/-- `Map::new_empty(width, height)`: all tiles are floors, empty cache. -/
def Map.new_empty (width height : Nat) : Map :=
  ⟨List.replicate (width * height) Tile.floor, width, height, []⟩

/-- `Algorithm2D::point2d_to_index`: `y * width + x`. -/
def Map.point2d_to_index (m : Map) (p : Pt) : Int := p.y * m.dimX + p.x

/-- `Algorithm2D::in_bounds`: both coordinates within `[0, dimension)`. -/
def Map.in_bounds (m : Map) (p : Pt) : Bool :=
  0 ≤ p.x && p.x < m.dimX && 0 ≤ p.y && p.y < m.dimY

/-- `HashMap::get` on the pathfinding cache (first matching key). -/
def cacheLookup (key : List MoveType) :
    List (List MoveType × MapInternal) → Option MapInternal
  | [] => none
  | (k, v) :: rest => if k = key then some v else cacheLookup key rest

/-- `MapInternal::from_map` (lines 286-300): per-tile `can_enter` collected
into the enterability vector (propagating any error), plus the opacity
vector and the dimensions. -/
def MapInternal.from_map (m : Map) (move_types : List MoveType) :
    Except String MapInternal :=
  (collectResults (m.tiles.map (fun t => t.can_enter move_types))).map
    (fun ent => ⟨m.tiles.map (·.opaq), ent, m.dimX, m.dimY⟩)

/-- `Map::get_from_cache_or_add` (lines 146-163): sort the capability list;
if the key is absent, build the projection (an error aborts without
inserting) and insert it; return the projection and the updated map. -/
def Map.get_from_cache_or_add (m : Map) (move_types : List MoveType) :
    Except String (MapInternal × Map) :=
  let key := sortMoveTypes move_types
  match cacheLookup key m.pathfinding_cache with
  | some proj => .ok (proj, m)
  | none =>
    match MapInternal.from_map m key with
    | .ok proj => .ok (proj, { m with pathfinding_cache := m.pathfinding_cache ++ [(key, proj)] })
    | .error e => .error e

/-- The map state after `Map::find_path` (lines 168-189).  A `[Walk]`
capability list searches the map as-is; otherwise the projection is fetched
or built through the cache.  `a_star_search` borrows the map immutably, so
the state change of the call is exactly the cache update (the returned
`NavigationPath` is not modelled). -/
def Map.find_path_state (m : Map) (move_types : List MoveType) : Map :=
  if move_types = [MoveType.Walk] then m
  else
    match m.get_from_cache_or_add move_types with
    | .ok (_, mNew) => mNew
    | .error _ => m

/-- The map state after `Map::dijkstra_map` (lines 194-222): the same
walk-bypass and fetch-or-build cache discipline as `find_path`;
`DijkstraMap::new` borrows the projection immutably. -/
def Map.dijkstra_map_state (m : Map) (move_types : List MoveType) : Map :=
  if move_types = [MoveType.Walk] then m
  else
    match m.get_from_cache_or_add move_types with
    | .ok (_, mNew) => mNew
    | .error _ => m

/-- `Map::set_tile_at` (lines 248-252): overwrite the tile at the point's
row-major index and clear the whole pathfinding cache.  (Rust panics when the
index is out of bounds; theorems about edits carry an in-bounds premise.) -/
def Map.set_tile_at (m : Map) (loc : Pt) (tile : Tile) : Map :=
  { m with tiles := m.tiles.set (m.point2d_to_index loc).toNat tile,
           pathfinding_cache := [] }

theorem collectResults_const_false (mts : List MoveType) :
    ∀ tiles : List Tile, (∀ t ∈ tiles, t.can_enter mts = .ok false) →
      collectResults (tiles.map (fun t => t.can_enter mts)) =
        .ok (tiles.map (fun _ => false)) := by
  intro tiles
  induction tiles with
  | nil => intro _; rfl
  | cons t rest ih =>
    intro hall
    simp only [List.map_cons, hall t (List.mem_cons_self _ _), collectResults,
      ih (fun u hu => hall u (List.mem_cons_of_mem _ hu))]

theorem find_path_state_walk (m : Map) :
    m.find_path_state [MoveType.Walk] = m := by
  unfold Map.find_path_state
  rw [if_pos rfl]

theorem find_path_state_miss (m : Map) (mts : List MoveType) (proj : MapInternal)
    (hW : ¬ mts = [MoveType.Walk])
    (hmiss : cacheLookup (sortMoveTypes mts) m.pathfinding_cache = none)
    (hbuild : MapInternal.from_map m (sortMoveTypes mts) = .ok proj) :
    m.find_path_state mts =
      { m with pathfinding_cache :=
          m.pathfinding_cache ++ [(sortMoveTypes mts, proj)] } := by
  unfold Map.find_path_state Map.get_from_cache_or_add
  rw [if_neg hW]
  simp only [hmiss, hbuild]

theorem find_path_state_hit (m : Map) (mts : List MoveType) (proj : MapInternal)
    (hW : ¬ mts = [MoveType.Walk])
    (hhit : cacheLookup (sortMoveTypes mts) m.pathfinding_cache = some proj) :
    m.find_path_state mts = m := by
  unfold Map.find_path_state Map.get_from_cache_or_add
  rw [if_neg hW]
  simp only [hhit]

/-- C2: cache lifecycle on a freshly constructed map: size 0 after a `{Walk}`
`find_path` query (walk bypasses the cache), 1 after a `{Swim}` query (lazy
population), still 1 after repeating the identical `{Swim}` query (no
duplicate insert), and 0 again after a `set_tile_at` edit (full
invalidation).  The in-bounds premise reflects that `set_tile_at` panics on
out-of-bounds points. -/
theorem C2_cache_lifecycle (w h : Nat) (loc : Pt) (tile : Tile)
    (_hin : (Map.new w h).in_bounds loc = true) :
    ((Map.new w h).find_path_state [MoveType.Walk]).pathfinding_cache.length = 0 ∧
    (((Map.new w h).find_path_state [MoveType.Walk]).find_path_state
        [MoveType.Swim]).pathfinding_cache.length = 1 ∧
    ((((Map.new w h).find_path_state [MoveType.Walk]).find_path_state
        [MoveType.Swim]).find_path_state [MoveType.Swim]).pathfinding_cache.length = 1 ∧
    (((((Map.new w h).find_path_state [MoveType.Walk]).find_path_state
        [MoveType.Swim]).find_path_state [MoveType.Swim]).set_tile_at loc
        tile).pathfinding_cache.length = 0 := by
  have h1 : (Map.new w h).find_path_state [MoveType.Walk] = Map.new w h :=
    find_path_state_walk _
  have hwalls : ∀ t ∈ (Map.new w h).tiles, t.can_enter [MoveType.Swim] = .ok false := by
    intro t ht
    have := List.eq_of_mem_replicate ht
    subst this
    rfl
  have hbuild : MapInternal.from_map (Map.new w h) (sortMoveTypes [MoveType.Swim]) =
      .ok ⟨(Map.new w h).tiles.map (·.opaq),
           (Map.new w h).tiles.map (fun _ => false), w, h⟩ := by
    unfold MapInternal.from_map
    rw [show sortMoveTypes [MoveType.Swim] = [MoveType.Swim] from rfl,
      collectResults_const_false [MoveType.Swim] (Map.new w h).tiles hwalls]
    rfl
  have h2 : (Map.new w h).find_path_state [MoveType.Swim] =
      { Map.new w h with pathfinding_cache :=
          [([MoveType.Swim],
            ⟨(Map.new w h).tiles.map (·.opaq),
             (Map.new w h).tiles.map (fun _ => false), w, h⟩)] } :=
    find_path_state_miss _ _ _ (by decide) rfl hbuild
  have h3 : ((Map.new w h).find_path_state [MoveType.Swim]).find_path_state
      [MoveType.Swim] = (Map.new w h).find_path_state [MoveType.Swim] := by
    apply find_path_state_hit _ _
      ⟨(Map.new w h).tiles.map (·.opaq), (Map.new w h).tiles.map (fun _ => false), w, h⟩
      (by decide)
    rw [h2]
    rfl
  rw [h1, h3, h2]
  exact ⟨rfl, rfl, rfl, rfl⟩

/-- C2 witness: the lifecycle theorem applied to a fresh 2×2 map with an edit
at the in-bounds point (0, 0). -/
theorem C2_cache_lifecycle_witness :
    (Map.new 2 2).in_bounds ⟨0, 0⟩ = true ∧
    (((Map.new 2 2).find_path_state [MoveType.Walk]).pathfinding_cache.length = 0 ∧
     (((Map.new 2 2).find_path_state [MoveType.Walk]).find_path_state
         [MoveType.Swim]).pathfinding_cache.length = 1 ∧
     ((((Map.new 2 2).find_path_state [MoveType.Walk]).find_path_state
         [MoveType.Swim]).find_path_state [MoveType.Swim]).pathfinding_cache.length = 1 ∧
     (((((Map.new 2 2).find_path_state [MoveType.Walk]).find_path_state
         [MoveType.Swim]).find_path_state [MoveType.Swim]).set_tile_at ⟨0, 0⟩
         Tile.floor).pathfinding_cache.length = 0) :=
  ⟨by decide, C2_cache_lifecycle 2 2 ⟨0, 0⟩ Tile.floor (by decide)⟩

/-- C3: the claim as stated fails — `find_path` with the empty capability set
does not behave like `{Walk}`: on a fresh 2×2 all-floor map the `{Walk}`
query leaves the cache empty, but the empty-set query populates the cache
with an entry keyed by the empty list (it goes through
`get_from_cache_or_add`, since `[] != [Walk]`). -/
theorem C3_counterexample :
    ((Map.new_empty 2 2).find_path_state [MoveType.Walk]).pathfinding_cache.length = 0 ∧
    ((Map.new_empty 2 2).find_path_state []).pathfinding_cache.length = 1 := by
  decide

/-- C3 (amended): `find_path` with the empty capability set does not default
to `{Walk}`; it canonicalizes the empty set and fetches-or-builds a cache
projection keyed by the empty list — a projection in which no tile is
enterable — and searches over that projection.  On a map whose cache lacks
the empty key, the call appends exactly that entry. -/
theorem C3_empty_set_uses_cache (m : Map)
    (hmiss : cacheLookup [] m.pathfinding_cache = none) :
    m.find_path_state [] =
      { m with pathfinding_cache := m.pathfinding_cache ++
          [([], ⟨m.tiles.map (·.opaq), m.tiles.map (fun _ => false),
                 m.dimX, m.dimY⟩)] } := by
  have hbuild : MapInternal.from_map m (sortMoveTypes []) =
      .ok ⟨m.tiles.map (·.opaq), m.tiles.map (fun _ => false), m.dimX, m.dimY⟩ := by
    unfold MapInternal.from_map
    rw [show sortMoveTypes [] = [] from rfl,
      collectResults_const_false [] m.tiles (fun t _ => rfl)]
    rfl
  exact find_path_state_miss m [] _ (by decide) hmiss hbuild

/-- C3 witness: the amended theorem applied to a fresh 2×2 all-wall map. -/
theorem C3_empty_set_uses_cache_witness :
    cacheLookup [] (Map.new 2 2).pathfinding_cache = none ∧
    (Map.new 2 2).find_path_state [] =
      { Map.new 2 2 with pathfinding_cache :=
          [([], ⟨(Map.new 2 2).tiles.map (·.opaq),
                 (Map.new 2 2).tiles.map (fun _ => false),
                 (Map.new 2 2).dimX, (Map.new 2 2).dimY⟩)] } :=
  ⟨rfl, C3_empty_set_uses_cache (Map.new 2 2) rfl⟩

theorem get_from_cache_or_add_frame (m : Map) (mts : List MoveType)
    (p : MapInternal) (mNew : Map)
    (hok : m.get_from_cache_or_add mts = .ok (p, mNew)) :
    mNew.tiles = m.tiles ∧ mNew.dimX = m.dimX ∧ mNew.dimY = m.dimY := by
  unfold Map.get_from_cache_or_add at hok
  cases hc : cacheLookup (sortMoveTypes mts) m.pathfinding_cache with
  | some proj =>
    simp only [hc] at hok
    cases hok
    exact ⟨rfl, rfl, rfl⟩
  | none =>
    simp only [hc] at hok
    cases hb : MapInternal.from_map m (sortMoveTypes mts) with
    | ok proj =>
      simp only [hb] at hok
      cases hok
      exact ⟨rfl, rfl, rfl⟩
    | error e =>
      simp only [hb] at hok
      cases hok

/-- C10: `find_path` and `dijkstra_map` take the map by mutable reference but
leave the tiles and the dimensions unchanged for every capability set; only
the pathfinding cache may change (the searches themselves borrow the map or
its projection immutably). -/
theorem C10_queries_preserve_tiles (m : Map) (mts : List MoveType) :
    ((m.find_path_state mts).tiles = m.tiles ∧
     (m.find_path_state mts).dimX = m.dimX ∧
     (m.find_path_state mts).dimY = m.dimY) ∧
    ((m.dijkstra_map_state mts).tiles = m.tiles ∧
     (m.dijkstra_map_state mts).dimX = m.dimX ∧
     (m.dijkstra_map_state mts).dimY = m.dimY) := by
  constructor
  · unfold Map.find_path_state
    by_cases hW : mts = [MoveType.Walk]
    · rw [if_pos hW]
      exact ⟨rfl, rfl, rfl⟩
    · rw [if_neg hW]
      cases hg : m.get_from_cache_or_add mts with
      | ok pr =>
        obtain ⟨p, mNew⟩ := pr
        simp only [hg]
        exact get_from_cache_or_add_frame m mts p mNew hg
      | error e =>
        simp [hg]
  · unfold Map.dijkstra_map_state
    by_cases hW : mts = [MoveType.Walk]
    · rw [if_pos hW]
      exact ⟨rfl, rfl, rfl⟩
    · rw [if_neg hW]
      cases hg : m.get_from_cache_or_add mts with
      | ok pr =>
        obtain ⟨p, mNew⟩ := pr
        simp only [hg]
        exact get_from_cache_or_add_frame m mts p mNew hg
      | error e =>
        simp [hg]

/-- Inclusive integer range `a..=b` (empty when `b < a`), modelling Rust
`for x in a..=b`. -/
def intRangeIncl (a b : Int) : List Int :=
  (List.range (b - a + 1).toNat).map (fun i => a + i)

/-- Exclusive integer range `a..b` (empty when `b ≤ a`), modelling Rust
`for x in a..b`. -/
def intRangeExcl (a b : Int) : List Int :=
  (List.range (b - a).toNat).map (fun i => a + i)

/-- bracket-geometry `Rect` (two corners). -/
structure RectI where
  x1 : Int
  y1 : Int
  x2 : Int
  y2 : Int
deriving DecidableEq, Repr

/-- `Rect::with_size(x, y, w, h)`. -/
def RectI.with_size (x y w h : Int) : RectI := ⟨x, y, x + w, y + h⟩

/-- `Rect::point_set()`: all points with `x1 ≤ x < x2`, `y1 ≤ y < y2`
(upper corners exclusive). -/
def RectI.point_set (r : RectI) : List Pt :=
  (intRangeExcl r.y1 r.y2).flatMap (fun y => (intRangeExcl r.x1 r.x2).map (fun x => ⟨x, y⟩))

/-- `RectRoom::floor` (`daedalus/src/genalgs/rooms.rs`): the rectangle's
point set. -/
def RectRoom.floor (r : RectI) : List Pt := r.point_set

/-- `RectRoom::walls`: the rectilinear ring outside the inclusive
rectangle. -/
def RectRoom.walls (r : RectI) : List Pt :=
  (intRangeIncl r.x1 r.x2).flatMap (fun x => [⟨x, r.y1 - 1⟩, ⟨x, r.y2 + 1⟩]) ++
    (intRangeIncl r.y1 r.y2).flatMap (fun y => [⟨r.x1 - 1, y⟩, ⟨r.x2 + 1, y⟩])

/-- `RectRoom::borders`: the walls plus the four outward corners. -/
def RectRoom.borders (r : RectI) : List Pt :=
  RectRoom.walls r ++
    [⟨r.x1 - 1, r.y1 - 1⟩, ⟨r.x1 - 1, r.y2 + 1⟩, ⟨r.x2 + 1, r.y1 - 1⟩, ⟨r.x2 + 1, r.y2 + 1⟩]

/-- `RectRoom::rotate_left` (lines 106-109):
`Rect::with_exact(y1, -x2, y2, -x1)`. -/
def RectRoom.rotate_left (r : RectI) : RectI := ⟨r.y1, -r.x2, r.y2, -r.x1⟩

/-- `RectRoom::rotate_right` (lines 111-114):
`Rect::with_exact(-y2, x1, -y1, x2)`. -/
def RectRoom.rotate_right (r : RectI) : RectI := ⟨-r.y2, r.x1, -r.y1, r.x2⟩

/-- `RectRoom::mirror`: `Rect::with_exact(-x2, y1, -x1, y2)`. -/
def RectRoom.mirror (r : RectI) : RectI := ⟨-r.x2, r.y1, -r.x1, r.y2⟩

/-- `RectRoom::shift`: translate, preserving bracket `Rect::width()` and
`Rect::height()` (which are absolute differences). -/
def RectRoom.shift (r : RectI) (offset : Pt) : RectI :=
  RectI.with_size (r.x1 + offset.x) (r.y1 + offset.y) |r.x2 - r.x1| |r.y2 - r.y1|

/-- `Hall` (`daedalus/src/genalgs/rooms.rs` lines 127-133): start point,
axis flag, signed length and the (unused) thickness. -/
structure HallS where
  start : Pt
  horizontal : Bool
  length : Int
  thickness : Int
deriving DecidableEq, Repr

/-- `Hall::endpoint`: the start displaced by the signed length along the
axis (the source adds `(0, length)` when `horizontal` is set). -/
def Hall.endpoint (hl : HallS) : Pt :=
  ptAdd hl.start (if hl.horizontal then ⟨0, hl.length⟩ else ⟨hl.length, 0⟩)

/-- Model of bracket-geometry `line2d_bresenham` restricted to the
axis-aligned segments `Hall` produces (start and end always agree in one
coordinate): the inclusive straight segment between the two points.
The fallback for points differing in both coordinates is never reached
from the `Hall` methods. -/
def lineAxis (a b : Pt) : List Pt :=
  if a.x = b.x then (intRangeIncl (min a.y b.y) (max a.y b.y)).map (fun y => ⟨a.x, y⟩)
  else if a.y = b.y then (intRangeIncl (min a.x b.x) (max a.x b.x)).map (fun x => ⟨x, a.y⟩)
  else [a, b]

/-- `Hall::floor` (lines 168-172): the line from start to endpoint. -/
def Hall.floor (hl : HallS) : List Pt := lineAxis hl.start (Hall.endpoint hl)

/-- `Hall::walls` (lines 174-207): the two side lines displaced one cell off
the axis, plus one cap cell beyond each end. -/
def Hall.walls (hl : HallS) : List Pt :=
  let e := Hall.endpoint hl
  let sideWallStarts : List Pt :=
    if hl.horizontal then [⟨0, 1⟩, ⟨0, -1⟩] else [⟨1, 0⟩, ⟨-1, 0⟩]
  let startWall : Pt :=
    if hl.horizontal then (if hl.length < 0 then ⟨1, 0⟩ else ⟨-1, 0⟩)
    else (if hl.length < 0 then ⟨0, 1⟩ else ⟨0, -1⟩)
  let endWall : Pt :=
    if hl.horizontal then (if hl.length < 0 then ⟨-1, 0⟩ else ⟨1, 0⟩)
    else (if hl.length < 0 then ⟨0, -1⟩ else ⟨0, 1⟩)
  (sideWallStarts.flatMap (fun d => lineAxis (ptAdd hl.start d) (ptAdd e d))) ++
    [ptAdd hl.start startWall, ptAdd e endWall]

/-- `Hall::borders` (lines 209-226): the walls plus the four diagonal
neighbours of the start and of the endpoint. -/
def Hall.borders (hl : HallS) : List Pt :=
  Hall.walls hl ++
    ([hl.start, Hall.endpoint hl].flatMap (fun p =>
      [ptAdd p ⟨1, 1⟩, ptAdd p ⟨1, -1⟩, ptAdd p ⟨-1, 1⟩, ptAdd p ⟨-1, -1⟩]))

/-- `Hall::rotate_left` (lines 246-254): rotate the start about the origin
and flip the axis flag, negating the length when leaving the horizontal
orientation. -/
def Hall.rotate_left (hl : HallS) : HallS :=
  if hl.horizontal then ⟨⟨hl.start.y, -hl.start.x⟩, false, -hl.length, hl.thickness⟩
  else ⟨⟨hl.start.y, -hl.start.x⟩, true, hl.length, hl.thickness⟩

/-- `Hall::rotate_right` (lines 236-244). -/
def Hall.rotate_right (hl : HallS) : HallS :=
  if hl.horizontal then ⟨⟨-hl.start.y, hl.start.x⟩, false, hl.length, hl.thickness⟩
  else ⟨⟨-hl.start.y, hl.start.x⟩, true, -hl.length, hl.thickness⟩

/-- The closed tagged-variant type over the `Room` trait objects that appear
in the generator: `RectRoom`, `Hall`, and `CompoundRoom` (an ordered member
list plus connection points). -/
inductive RoomShape where
  | rect : RectI → RoomShape
  | hall : HallS → RoomShape
  | compound : List RoomShape → List Pt → RoomShape

mutual

/-- `Room::floor` dispatched over the variants; for `CompoundRoom` the union
of the members' floors plus the connection points
(`compound_room.rs` lines 89-97). -/
def RoomShape.floor : RoomShape → List Pt
  | .rect r => RectRoom.floor r
  | .hall h => Hall.floor h
  | .compound rooms conns => floorList rooms ++ conns

/-- Union of the floors of a list of member shapes. -/
def floorList : List RoomShape → List Pt
  | [] => []
  | r :: rs => RoomShape.floor r ++ floorList rs

end

mutual

/-- `Room::walls` dispatched over the variants; for `CompoundRoom` the union
of the members' walls (`compound_room.rs` lines 116-121). -/
def RoomShape.walls : RoomShape → List Pt
  | .rect r => RectRoom.walls r
  | .hall h => Hall.walls h
  | .compound rooms _ => wallsList rooms

/-- Union of the walls of a list of member shapes. -/
def wallsList : List RoomShape → List Pt
  | [] => []
  | r :: rs => RoomShape.walls r ++ wallsList rs

end

mutual

/-- `Room::borders` dispatched over the variants; for `CompoundRoom` the
union of the members' borders minus the compound's floor
(`compound_room.rs` lines 99-107). -/
def RoomShape.borders : RoomShape → List Pt
  | .rect r => RectRoom.borders r
  | .hall h => Hall.borders h
  | .compound rooms conns =>
    (bordersList rooms).filter (fun p => !((floorList rooms ++ conns).contains p))

/-- Union of the borders of a list of member shapes. -/
def bordersList : List RoomShape → List Pt
  | [] => []
  | r :: rs => RoomShape.borders r ++ bordersList rs

end

mutual

/-- `Room::all_points`: the default implementation is floor plus borders;
`CompoundRoom` overrides it with the union of the members' `all_points`
(which omits the connection points — `compound_room.rs` lines 109-114). -/
def RoomShape.all_points : RoomShape → List Pt
  | .rect r => RectRoom.floor r ++ RectRoom.borders r
  | .hall h => Hall.floor h ++ Hall.borders h
  | .compound rooms _ => allPointsList rooms

/-- Union of `all_points` over a list of member shapes. -/
def allPointsList : List RoomShape → List Pt
  | [] => []
  | r :: rs => RoomShape.all_points r ++ allPointsList rs

end

mutual

/-- `Room::rotate_left` dispatched over the variants; a `CompoundRoom`
rotates each member and leaves the connection set untouched
(`compound_room.rs` lines 138-140). -/
def RoomShape.rotate_left : RoomShape → RoomShape
  | .rect r => .rect (RectRoom.rotate_left r)
  | .hall h => .hall (Hall.rotate_left h)
  | .compound rooms conns => .compound (rotlList rooms) conns

/-- `rotate_left` mapped over a member list. -/
def rotlList : List RoomShape → List RoomShape
  | [] => []
  | r :: rs => RoomShape.rotate_left r :: rotlList rs

end

mutual

/-- `Room::rotate_right` dispatched over the variants
(`compound_room.rs` lines 142-144). -/
def RoomShape.rotate_right : RoomShape → RoomShape
  | .rect r => .rect (RectRoom.rotate_right r)
  | .hall h => .hall (Hall.rotate_right h)
  | .compound rooms conns => .compound (rotrList rooms) conns

/-- `rotate_right` mapped over a member list. -/
def rotrList : List RoomShape → List RoomShape
  | [] => []
  | r :: rs => RoomShape.rotate_right r :: rotrList rs

end

mutual

theorem rotl4_rs : ∀ s : RoomShape,
    s.rotate_left.rotate_left.rotate_left.rotate_left = s
  | .rect r => by
    cases r
    simp [RoomShape.rotate_left, RectRoom.rotate_left]
  | .hall h => by
    obtain ⟨⟨x, y⟩, hor, len, th⟩ := h
    cases hor <;> simp [RoomShape.rotate_left, Hall.rotate_left]
  | .compound rooms conns => by
    simp only [RoomShape.rotate_left]
    rw [rotl4_list rooms]

theorem rotl4_list : ∀ l : List RoomShape,
    rotlList (rotlList (rotlList (rotlList l))) = l
  | [] => rfl
  | r :: rs => by
    simp only [rotlList]
    rw [rotl4_rs r, rotl4_list rs]

end

mutual

theorem rotr4_rs : ∀ s : RoomShape,
    s.rotate_right.rotate_right.rotate_right.rotate_right = s
  | .rect r => by
    cases r
    simp [RoomShape.rotate_right, RectRoom.rotate_right]
  | .hall h => by
    obtain ⟨⟨x, y⟩, hor, len, th⟩ := h
    cases hor <;> simp [RoomShape.rotate_right, Hall.rotate_right]
  | .compound rooms conns => by
    simp only [RoomShape.rotate_right]
    rw [rotr4_list rooms]

theorem rotr4_list : ∀ l : List RoomShape,
    rotrList (rotrList (rotrList (rotrList l))) = l
  | [] => rfl
  | r :: rs => by
    simp only [rotrList]
    rw [rotr4_rs r, rotr4_list rs]

end

/-- C4: four successive `rotate_left` calls (and likewise four
`rotate_right` calls) return every room shape — `RectRoom`, `Hall`, or
`CompoundRoom`, in any starting configuration — to a shape whose floor,
wall and border point sets are exactly the original ones (in fact the whole
state returns to its starting value). -/
theorem C4_rotation_closure (s : RoomShape) (p : Pt) :
    (p ∈ (s.rotate_left.rotate_left.rotate_left.rotate_left).floor ↔ p ∈ s.floor) ∧
    (p ∈ (s.rotate_left.rotate_left.rotate_left.rotate_left).walls ↔ p ∈ s.walls) ∧
    (p ∈ (s.rotate_left.rotate_left.rotate_left.rotate_left).borders ↔ p ∈ s.borders) ∧
    (p ∈ (s.rotate_right.rotate_right.rotate_right.rotate_right).floor ↔ p ∈ s.floor) ∧
    (p ∈ (s.rotate_right.rotate_right.rotate_right.rotate_right).walls ↔ p ∈ s.walls) ∧
    (p ∈ (s.rotate_right.rotate_right.rotate_right.rotate_right).borders ↔ p ∈ s.borders) := by
  rw [rotl4_rs s, rotr4_rs s]
  exact ⟨Iff.rfl, Iff.rfl, Iff.rfl, Iff.rfl, Iff.rfl, Iff.rfl⟩

/-- `HashSet::is_disjoint`: no common element. -/
def disjointPts (a b : List Pt) : Bool := a.all (fun p => !(b.contains p))

/-- `RoomCollisions::collides_with` (`rooms.rs` lines 41-48): two rooms
collide unless each one's floor is disjoint from the other's `all_points`. -/
def collidesWith (a b : RoomShape) : Bool :=
  !(disjointPts a.floor b.all_points && disjointPts a.all_points b.floor)

/-- Modelled from the spec: `connects_to` is called by
`CompoundRoom::attach_room` and by the generator's `fit_room`, but its
definition is absent from the sources (the `RoomCollisions` trait only
defines `collides_with`).  Per the spec, two shapes connect iff they do not
collide and their wall sets intersect. -/
def connectsTo (a b : RoomShape) : Bool :=
  !(collidesWith a b) && !(disjointPts a.walls b.walls)

/-- `CompoundRoom` (`compound_room.rs` lines 4-8): the ordered member list
and the set of connection (door) points. -/
structure CompoundRoom where
  rooms : List RoomShape
  connections : List Pt

/-- `CompoundRoom::new()`. -/
def CompoundRoom.new : CompoundRoom := ⟨[], []⟩

/-- `CompoundRoom::from_room(room)`. -/
def CompoundRoom.from_room (r : RoomShape) : CompoundRoom := ⟨[r], []⟩

/-- The compound viewed through the `Room` trait (its `impl Room for
CompoundRoom`). -/
def CompoundRoom.asShape (c : CompoundRoom) : RoomShape :=
  .compound c.rooms c.connections

/-- `HashSet::insert` on the connection set (no-op when present). -/
def insertPt (l : List Pt) (p : Pt) : List Pt :=
  if p ∈ l then l else l ++ [p]

/-- `CompoundRoom::attach_room` (`compound_room.rs` lines 33-40): when the
connection point lies in the compound's wall set and the compound
connects-to the candidate, push the room and record the connection point and
return true; otherwise return false leaving the compound unchanged. -/
def CompoundRoom.attach_room (c : CompoundRoom) (room : RoomShape) (connection : Pt) :
    Bool × CompoundRoom :=
  if (wallsList c.rooms).contains connection && connectsTo c.asShape room then
    (true, ⟨c.rooms ++ [room], insertPt c.connections connection⟩)
  else (false, c)

/-- C5: `attach_room(shape, connection_point)` succeeds — appending the shape
to the member list and inserting the connection point — exactly when the
connection point is in the compound's wall set and the compound connects-to
the candidate; on failure it returns false and leaves the member list and
connection set unchanged. -/
theorem C5_attach_room_spec (c : CompoundRoom) (room : RoomShape) (pt : Pt) :
    ((c.attach_room room pt).1 = true ↔
      ((wallsList c.rooms).contains pt = true ∧ connectsTo c.asShape room = true)) ∧
    ((c.attach_room room pt).1 = false → (c.attach_room room pt).2 = c) ∧
    ((c.attach_room room pt).1 = true →
      (c.attach_room room pt).2.rooms = c.rooms ++ [room] ∧
      ∀ q : Pt, q ∈ (c.attach_room room pt).2.connections ↔ q = pt ∨ q ∈ c.connections) := by
  by_cases h : ((wallsList c.rooms).contains pt && connectsTo c.asShape room) = true
  · have hattach : c.attach_room room pt =
        (true, ⟨c.rooms ++ [room], insertPt c.connections pt⟩) := by
      unfold CompoundRoom.attach_room
      rw [if_pos h]
    rw [Bool.and_eq_true] at h
    rw [hattach]
    refine ⟨?_, ?_, ?_⟩
    · simpa using h
    · intro hf
      simp at hf
    intro _
    refine ⟨rfl, ?_⟩
    intro q
    unfold insertPt
    by_cases hmem : pt ∈ c.connections
    · rw [if_pos hmem]
      constructor
      · exact fun hq => Or.inr hq
      · rintro (rfl | hq)
        · exact hmem
        · exact hq
    · rw [if_neg hmem]
      simp [List.mem_append, or_comm]
  · have hattach : c.attach_room room pt = (false, c) := by
      unfold CompoundRoom.attach_room
      rw [if_neg h]
    rw [Bool.and_eq_true] at h
    rw [hattach]
    refine ⟨?_, ?_, ?_⟩
    · simpa using h
    · intro _
      rfl
    · intro ht
      simp at ht

/-- C5 witness: the theorem applied to the empty compound (whose wall set is
empty, so attachment fails) — the call returns false and the unchanged
compound — and to a one-rectangle compound with a rectangle placed across a
shared wall cell, where attachment succeeds and appends the member. -/
theorem C5_attach_room_spec_witness :
    (CompoundRoom.attach_room ⟨[], []⟩ (RoomShape.rect ⟨0, 0, 2, 2⟩) ⟨0, 0⟩).1 = false ∧
    (CompoundRoom.attach_room ⟨[], []⟩ (RoomShape.rect ⟨0, 0, 2, 2⟩) ⟨0, 0⟩).2 = ⟨[], []⟩ ∧
    (CompoundRoom.attach_room ⟨[RoomShape.rect ⟨0, 0, 2, 2⟩], []⟩
        (RoomShape.rect ⟨4, 0, 6, 2⟩) ⟨3, 1⟩).1 = true ∧
    (CompoundRoom.attach_room ⟨[RoomShape.rect ⟨0, 0, 2, 2⟩], []⟩
        (RoomShape.rect ⟨4, 0, 6, 2⟩) ⟨3, 1⟩).2.rooms =
      [RoomShape.rect ⟨0, 0, 2, 2⟩] ++ [RoomShape.rect ⟨4, 0, 6, 2⟩] :=
  ⟨rfl,
   (C5_attach_room_spec ⟨[], []⟩ (RoomShape.rect ⟨0, 0, 2, 2⟩) ⟨0, 0⟩).2.1 rfl,
   rfl,
   ((C5_attach_room_spec ⟨[RoomShape.rect ⟨0, 0, 2, 2⟩], []⟩
       (RoomShape.rect ⟨4, 0, 6, 2⟩) ⟨3, 1⟩).2.2 rfl).1⟩

/-- `Labyrinth2D` (`labyrinth_map/src/map_objects.rs` lines 27-34): the tiles
(row-major) and the dimensions.  The `_filter` scratch field takes part only
in neighbour expansion during a search and is omitted. -/
structure Labyrinth where
  tiles : List Tile
  dimX : Int
  dimY : Int
deriving Repr

/-- `Labyrinth2D::new(width, height)`: all tiles are walls. -/
def Labyrinth.new (width height : Nat) : Labyrinth :=
  ⟨List.replicate (width * height) Tile.wall, width, height⟩

/-- `Algorithm2D::in_bounds` for the labyrinth. -/
def Labyrinth.in_bounds (l : Labyrinth) (p : Pt) : Bool :=
  0 ≤ p.x && p.x < l.dimX && 0 ≤ p.y && p.y < l.dimY

/-- `Algorithm2D::point2d_to_index` for the labyrinth. -/
def Labyrinth.point2d_to_index (l : Labyrinth) (p : Pt) : Int := p.y * l.dimX + p.x

/-- `Labyrinth2D::set_tile_at` (no cache in this struct; a plain tile
write). -/
def Labyrinth.set_tile_at (l : Labyrinth) (loc : Pt) (tile : Tile) : Labyrinth :=
  { l with tiles := l.tiles.set (l.point2d_to_index loc).toNat tile }

/-- `Labyrinth2D::tile_at` as a partial read (the Rust version panics out of
bounds). -/
def Labyrinth.tile_at (l : Labyrinth) (loc : Pt) : Option Tile :=
  l.tiles.get? (l.point2d_to_index loc).toNat

/-- `Labyrinth2D::new_walled` (`labyrinth_map/src/map_objects.rs` lines
116-139), verbatim wall condition: index `i` becomes a wall when
`i < width`, or `i > width*height - width`, or `i % height == 0`, or
`i % height == width - 1`; every other tile stays floor.  (Subtractions are
on `usize`; no operand here underflows for positive dimensions.) -/
def Labyrinth.new_walled (width height : Nat) : Labyrinth :=
  { tiles := (List.range (width * height)).map (fun i =>
      if i < width ∨ i > width * height - width ∨ i % height = 0 ∨ i % height = width - 1
      then Tile.wall else Tile.floor),
    dimX := width, dimY := height }

/-- `MapGenerator2D::update_rooms` (`daedalus/src/map_generators.rs` lines
149-159) in its `dirty = true` state (the state `generate` always reaches via
`flush_map`): for every member room of the generator's compound, write a
floor tile at every in-bounds floor cell.  The compound's `connections` set
is not consulted. -/
def MapGenerator.update_rooms (lab : Labyrinth) (croom : CompoundRoom) : Labyrinth :=
  croom.rooms.foldl (fun acc room =>
    (RoomShape.floor room).foldl (fun l pt =>
      if l.in_bounds pt then l.set_tile_at pt Tile.floor else l) acc) lab

/-- C6: at the concrete generator-style compound built by attaching a 2×2
rectangle to a seed 2×2 rectangle across the shared wall cell (3, 1), the
commit path (`add_compound_room` + `update_rooms`) writes the in-bounds
member floor cells but leaves the recorded connection point (3, 1) — in
bounds on the 8×4 grid — as a wall: the door cell is never written, because
`update_rooms` iterates only member floors and the door-writing
`apply_compound_room_to_map` is no longer called. -/
theorem C6_commit_drops_connection_points :
    (CompoundRoom.attach_room ⟨[RoomShape.rect ⟨0, 0, 2, 2⟩], []⟩
        (RoomShape.rect ⟨4, 0, 6, 2⟩) ⟨3, 1⟩).1 = true ∧
    (⟨3, 1⟩ : Pt) ∈ (CompoundRoom.attach_room ⟨[RoomShape.rect ⟨0, 0, 2, 2⟩], []⟩
        (RoomShape.rect ⟨4, 0, 6, 2⟩) ⟨3, 1⟩).2.connections ∧
    (Labyrinth.new 8 4).in_bounds ⟨3, 1⟩ = true ∧
    Labyrinth.tile_at (MapGenerator.update_rooms (Labyrinth.new 8 4)
        (CompoundRoom.attach_room ⟨[RoomShape.rect ⟨0, 0, 2, 2⟩], []⟩
          (RoomShape.rect ⟨4, 0, 6, 2⟩) ⟨3, 1⟩).2) ⟨3, 1⟩ = some Tile.wall ∧
    Labyrinth.tile_at (MapGenerator.update_rooms (Labyrinth.new 8 4)
        (CompoundRoom.attach_room ⟨[RoomShape.rect ⟨0, 0, 2, 2⟩], []⟩
          (RoomShape.rect ⟨4, 0, 6, 2⟩) ⟨3, 1⟩).2) ⟨1, 1⟩ = some Tile.floor := by
  refine ⟨rfl, ?_, rfl, rfl, rfl⟩
  decide

/-- C7: `new_walled` does not produce a solid border ring with floor
interior on non-square maps: on the 3-wide, 2-high map the boundary cell
(0, 1) — left edge and bottom edge, row-major index 3 — is a floor tile, and
on the 4-wide, 3-high map the interior cell (2, 1) — index 6 — is a wall,
both contradicting the constructor's documentation (the column tests use
`i % height` where the row-major layout requires `i % width`). -/
theorem C7_new_walled_boundary_bug :
    (Labyrinth.new_walled 3 2).tiles.get? 3 = some Tile.floor ∧
    (Labyrinth.new_walled 4 3).tiles.get? 6 = some Tile.wall ∧
    (Labyrinth.new_walled 3 2).dimX = 3 ∧ (Labyrinth.new_walled 3 2).dimY = 2 := by
  refine ⟨?_, ?_, rfl, rfl⟩ <;> decide

/-- Model of Rust `str::to_lowercase` on the ASCII capability names used by
the tiles (character-wise lowercase; agrees with the Rust Unicode folding on
ASCII). -/
def strToLower (s : String) : String := String.mk (s.data.map Char.toLower)

/-- `HashMap::entry(prop).or_insert(value)`: keep the stored value when the
key exists, else append the pair. -/
def orInsert (l : List (String × Bool)) (k : String) (v : Bool) : List (String × Bool) :=
  if (lookupStr l k).isSome then l else l ++ [(k, v)]

/-- `Tile::add_movetype` (`labyrinth_map/src/map_objects/tiles.rs` lines
384-388): lowercase the name, then insert-if-absent into `other_movement`. -/
def Tile.add_movetype (t : Tile) (movtype : String) (value : Bool) : Tile :=
  { t with other_movement := orInsert t.other_movement (strToLower movtype) value }

/-- C8: the claim as stated fails — `MoveType::Custom` equality is the
derived, case-sensitive structural equality, so `Custom "Dig"` and
`Custom "dig"` are different capabilities, and after storing the capability
"Dig" on a wall (which records the lowercased name "dig") the accessibility
query with `Custom "dig"` answers `Ok(true)` while the query with
`Custom "Dig"` answers an error. -/
theorem C8_counterexample :
    (¬ (MoveType.Custom "Dig" = MoveType.Custom "dig")) ∧
    isOkTrue ((Tile.wall.add_movetype "Dig" true).can_enter [MoveType.Custom "dig"]) = true ∧
    isOkTrue ((Tile.wall.add_movetype "Dig" true).can_enter [MoveType.Custom "Dig"]) = false := by
  refine ⟨?_, ?_, ?_⟩ <;> decide

theorem lookupStr_orInsert_isSome (l : List (String × Bool)) (k : String) (v : Bool) :
    (lookupStr (orInsert l k v) k).isSome = true := by
  unfold orInsert
  by_cases h : (lookupStr l k).isSome = true
  · rw [if_pos h]
    exact h
  · rw [if_neg h]
    induction l with
    | nil => simp [lookupStr]
    | cons p rest ih =>
      obtain ⟨pk, pv⟩ := p
      by_cases hk : pk = k
      · subst hk
        simp [lookupStr] at h
      · simp only [List.cons_append, lookupStr, if_neg hk] at h ⊢
        exact ih h

/-- C8 (amended): custom capability names are lowercased at insertion time
(`Tile::add_movetype` folds the key before storing it), but comparison stays
case-sensitive: `MoveType::Custom` values are equal exactly when their names
are equal character-for-character, and `can_enter` looks the queried name up
without folding — so only the lowercased name matches a stored custom
capability. -/
theorem C8_custom_names_amended (a b : String) (t : Tile) (s : String) (v : Bool) :
    (MoveType.Custom a = MoveType.Custom b ↔ a = b) ∧
    (lookupStr (t.add_movetype s v).other_movement (strToLower s)).isSome = true ∧
    canEnterOne (t.add_movetype s v) (MoveType.Custom (strToLower s)) =
      .ok (accessMem (t.add_movetype s v) (MoveType.Custom (strToLower s))) := by
  refine ⟨by simp, lookupStr_orInsert_isSome _ _ _, ?_⟩
  have h := lookupStr_orInsert_isSome t.other_movement (strToLower s) v
  unfold Tile.add_movetype canEnterOne accessMem
  cases hl : lookupStr (orInsert t.other_movement (strToLower s) v) (strToLower s) with
  | none => rw [hl] at h; simp at h
  | some x => simp [hl]

/-- `HashMap::get` on a char-keyed tile dictionary. -/
def lookupChar : List (Char × Tile) → Char → Option Tile
  | [], _ => none
  | (k, v) :: rest, c => if k = c then some v else lookupChar rest c

/-- `collect::<Option<Vec<Tile>>>()` over the characters of the joined map
string. -/
def traverseTiles (dict : List (Char × Tile)) : List Char → Option (List Tile)
  | [] => some []
  | c :: rest =>
    match lookupChar dict c, traverseTiles dict rest with
    | some t, some ts => some (t :: ts)
    | _, _ => none

/-- Outcome of `Labyrinth2D::unpack`: a Rust panic, an `Err`, or a
constructed labyrinth (tiles, width, height). -/
inductive UnpackResult where
  | panics : UnpackResult
  | err : String → UnpackResult
  | okL : List Tile → Int → Int → UnpackResult
deriving DecidableEq, Repr

/-- `Labyrinth2D::unpack` (`labyrinth_serialization.rs` lines 116-152):
reject unequal row lengths (`min != max` over the row lengths, both `None`
for no rows); then read the width from `mapstring[1]` — an index that panics
whenever fewer than two rows are present — take the height as the row count,
join the rows and map every character through the dictionary, rejecting any
undefined symbol. -/
def unpack (mapstring : List String) (tiledict : List (Char × Tile)) : UnpackResult :=
  if (mapstring.map (fun s => s.length)).min? ≠ (mapstring.map (fun s => s.length)).max? then
    .err "Row lengths do not match!"
  else
    match mapstring.get? 1 with
    | none => .panics
    | some row1 =>
      match traverseTiles tiledict (String.join mapstring).toList with
      | none => .err "Tiledict incomplete, could not construct map"
      | some tiles => .okL tiles row1.length mapstring.length

/-- C9: on the single-row map string `["#"]` with the symbol `#` defined in
the dictionary — an input with all row lengths equal and no undefined
symbol, for which the claim requires a 1×1 grid — `unpack` panics (the
width is read from `mapstring[1]`, an out-of-bounds index whenever fewer
than two rows are present) instead of returning the grid. -/
theorem C9_unpack_single_row_panics :
    unpack ["#"] [('#', Tile.wall)] = UnpackResult.panics ∧
    ((["#"] : List String).map (fun s => s.length)).min? =
      ((["#"] : List String).map (fun s => s.length)).max? ∧
    (∀ c ∈ ("#".toList), (lookupChar [('#', Tile.wall)] c).isSome = true) ∧
    unpack ["#", "#"] [('#', Tile.wall)] =
      UnpackResult.okL [Tile.wall, Tile.wall] 1 2 := by
  refine ⟨?_, ?_, ?_, ?_⟩ <;> decide
